import Mathlib

/-!
Verification development for the CodeSentinel review pipeline.

The repository ships the frontend pages `Submit.tsx` and `History.tsx`
and design documentation; the backend core (rate limiter, content cache,
worker normalization, status machine) is specified in `spec.md` and the
design docs but its source is not part of the tree, so those parts are
modelled from the spec.  Frontend definitions are translated directly
from the TypeScript source.
-/

namespace CodeSentinel

/-- Submission status. Modelled from the spec: status values form a strict
progression pending → in_progress → completed or failed (spec §3,
ADR 0002). -/
inductive Status where
  | pending
  | in_progress
  | completed
  | failed
  deriving DecidableEq, Repr

/-- A status is terminal when it is completed or failed (spec §3). -/
def Status.isTerminal : Status → Bool
  | .completed => true
  | .failed => true
  | _ => false

/-- Modelled from the spec: the allowed single-step status transitions
(spec §3: pending → in_progress → completed or failed; no transition
leaves a terminal state). -/
def canStep : Status → Status → Bool
  | .pending, .in_progress => true
  | .in_progress, .completed => true
  | .in_progress, .failed => true
  | _, _ => false

/-- A chain of statuses where each consecutive pair is an allowed transition. -/
def chainFrom : Status → List Status → Bool
  | _, [] => true
  | s, t :: rest => canStep s t && chainFrom t rest

/-- Modelled from the spec: the full status history of a submission starts at
pending (submissions are created pending, spec §3) and follows allowed
transitions. -/
def isTrace : List Status → Bool
  | [] => false
  | s :: rest => (s == Status.pending) && chainFrom s rest

lemma trace_cases (t : List Status) (ht : isTrace t = true) :
    t = [Status.pending] ∨
    t = [Status.pending, Status.in_progress] ∨
    t = [Status.pending, Status.in_progress, Status.completed] ∨
    t = [Status.pending, Status.in_progress, Status.failed] := by
  match t with
  | [] => simp [isTrace] at ht
  | s :: rest =>
    simp only [isTrace, Bool.and_eq_true, beq_iff_eq] at ht
    obtain ⟨hs, hchain⟩ := ht
    subst hs
    match rest with
    | [] => exact Or.inl rfl
    | t1 :: rest1 =>
      simp only [chainFrom, Bool.and_eq_true] at hchain
      obtain ⟨hstep1, hchain1⟩ := hchain
      cases t1 <;> simp [canStep] at hstep1
      match rest1 with
      | [] => exact Or.inr (Or.inl rfl)
      | t2 :: rest2 =>
        simp only [chainFrom, Bool.and_eq_true] at hchain1
        obtain ⟨hstep2, hchain2⟩ := hchain1
        cases t2 <;> simp [canStep] at hstep2
        case completed =>
          match rest2 with
          | [] => exact Or.inr (Or.inr (Or.inl rfl))
          | t3 :: _ =>
            simp only [chainFrom, Bool.and_eq_true] at hchain2
            cases t3 <;> simp [canStep] at hchain2
        case failed =>
          match rest2 with
          | [] => exact Or.inr (Or.inr (Or.inr rfl))
          | t3 :: _ =>
            simp only [chainFrom, Bool.and_eq_true] at hchain2
            cases t3 <;> simp [canStep] at hchain2

lemma trace_prefix (t : List Status) (ht : isTrace t = true) :
    t <+: [Status.pending, Status.in_progress, Status.completed] ∨
    t <+: [Status.pending, Status.in_progress, Status.failed] := by
  rcases trace_cases t ht with h | h | h | h <;> subst h
  · exact Or.inl ⟨[Status.in_progress, Status.completed], rfl⟩
  · exact Or.inl ⟨[Status.completed], rfl⟩
  · exact Or.inl ⟨[], rfl⟩
  · exact Or.inr ⟨[], rfl⟩

/-- C1: For every submission, the sequence of status values a subscriber
observes is a subsequence of pending, in_progress, completed or of pending,
in_progress, failed; completed and failed are terminal and no transition ever
leaves a terminal state. -/
theorem status_progression :
    (∀ t obs : List Status, isTrace t = true → obs.Sublist t →
      obs.Sublist [Status.pending, Status.in_progress, Status.completed] ∨
      obs.Sublist [Status.pending, Status.in_progress, Status.failed]) ∧
    (∀ s u : Status, s.isTerminal = true → canStep s u = false) := by
  refine ⟨fun t obs ht hobs => ?_, fun s u hs => ?_⟩
  · rcases trace_prefix t ht with h | h
    · exact Or.inl (hobs.trans h.sublist)
    · exact Or.inr (hobs.trans h.sublist)
  · cases s <;> cases u <;> simp_all [Status.isTerminal, canStep]

/-- Concrete instantiation of `status_progression`. -/
theorem status_progression_witness :
    ([Status.pending, Status.completed].Sublist
        [Status.pending, Status.in_progress, Status.completed] ∨
      [Status.pending, Status.completed].Sublist
        [Status.pending, Status.in_progress, Status.failed]) ∧
    canStep Status.completed Status.pending = false :=
  ⟨status_progression.1 [Status.pending, Status.in_progress, Status.completed]
      [Status.pending, Status.completed] (by decide) (by decide),
    status_progression.2 Status.completed Status.pending (by decide)⟩

/-- Issue record. Modelled from the spec: each issue carries title, detail,
severity, category (spec §3, docs/overview.md); the concrete element type of
the frontend lists lives in the missing `lib/types` module. -/
structure Issue where
  title : String
  detail : String
  severity : String
  category : String
  deriving DecidableEq

/-- The Review record as built by the Submit page optimistic insert
(`Submit.tsx` lines 43–55), which spells out every field of the frontend
`Review` type. -/
structure Review where
  id : String
  language : String
  status : Status
  score : Option Int
  issues : List Issue
  security : List Issue
  performance : List Issue
  suggestions : List String
  created_at : String
  updated_at : String
  error : Option String
  deriving DecidableEq

/-- The optimistic Review inserted on submit (`Submit.tsx` lines 43–55). -/
def mkOptimistic (tempId language now : String) : Review :=
  { id := tempId
    language := language
    status := .pending
    score := none
    issues := []
    security := []
    performance := []
    suggestions := []
    created_at := now
    updated_at := now
    error := none }

/-- Paginated list response (`Submit.tsx` lines 40, 57–65). -/
structure PaginatedReviewsResponse where
  items : List Review
  total : Nat
  page : Nat
  page_size : Nat
  deriving DecidableEq

/-- The fallback page used when the query cache is empty
(`Submit.tsx` line 40). -/
def emptyPage : PaginatedReviewsResponse :=
  { items := [], total := 0, page := 1, page_size := 5 }

/-- Context captured by the onMutate handler of the submit mutation
(`Submit.tsx` line 67). -/
structure SubmitCtx where
  previous : PaginatedReviewsResponse
  tempId : String
  deriving DecidableEq

/-- The submit endpoint response `{id, status}` (spec §6, README). -/
structure SubmitResponse where
  id : String
  status : Status
  deriving DecidableEq

/-- The onMutate handler (`Submit.tsx` lines 37–68): snapshot the cached
list, insert the optimistic record at the front keeping at most five items,
bump the total, and return the snapshot and the temporary id. -/
def onMutate (cache : Option PaginatedReviewsResponse) (tempId language now : String) :
    Option PaginatedReviewsResponse × SubmitCtx :=
  let previous := cache.getD emptyPage
  let optimistic := mkOptimistic tempId language now
  let updated : PaginatedReviewsResponse :=
    match cache with
    | some old =>
        { items := (optimistic :: old.items).take 5
          total := old.total + 1
          page := old.page
          page_size := old.page_size }
    | none =>
        { items := [optimistic].take 5
          total := 1
          page := 1
          page_size := 5 }
  (some updated, { previous := previous, tempId := tempId })

/-- The onSuccess cache update (`Submit.tsx` lines 72–78): replace the
temporary id with the server id and status. -/
def onSuccessUpdate (old : Option PaginatedReviewsResponse) (res : SubmitResponse)
    (tempId : String) : PaginatedReviewsResponse :=
  match old with
  | none => { items := [], total := 0, page := 1, page_size := 5 }
  | some old =>
      { old with
        items := old.items.map fun r =>
          if r.id = tempId then { r with id := res.id, status := res.status } else r }

/-- Modelled from the spec: the submission error taxonomy as surfaced to the
frontend api client (spec §7, README "Rate limit: 429 if exceeded"); the
backend and the `lib/api` client are not in the tree.  Rate-limit denial is
an HTTP 429 error message; the other errors carry their own status codes. -/
inductive SubmitError where
  | admissionDenied
  | validationError
  | serverError
  deriving DecidableEq

/-- Modelled from the spec: the error message the api client raises for each
failure, carrying the HTTP status code. -/
def SubmitError.message : SubmitError → String
  | .admissionDenied => "Request failed with status 429 Too Many Requests"
  | .validationError => "Request failed with status 422 Unprocessable Entity"
  | .serverError => "Request failed with status 500 Internal Server Error"

/-- Check whether `pat` occurs as a contiguous run inside `l`. -/
def hasInfixRun (pat : List Char) : List Char → Bool
  | [] => pat.isEmpty
  | c :: rest => pat.isPrefixOf (c :: rest) || hasInfixRun pat rest

/-- JavaScript `String.prototype.includes`: substring containment. -/
def strIncludes (s pat : String) : Bool :=
  hasInfixRun pat.data s.data

/-- Submit page state after one mutation settles: the active submission id
(`setId`), the `["reviews"]` query cache, and whether the rate-limit toast
was shown. -/
structure SubmitPageState where
  id : Option String
  cache : Option PaginatedReviewsResponse
  rateLimitToast : Bool
  deriving DecidableEq

/-- One submission attempt from the Submit page (`Submit.tsx` lines 19–22 and
35–97): `onSubmit` clears the id, onMutate inserts the optimistic record, then
either onSuccess sets the id and reconciles the list, or onError restores the
snapshot and shows the rate-limit toast exactly when the error message
contains "429" (line 86). -/
def submitFlow (cache0 : Option PaginatedReviewsResponse) (tempId language now : String)
    (result : Except SubmitError SubmitResponse) : SubmitPageState :=
  let step := onMutate cache0 tempId language now
  match result with
  | .ok res =>
      { id := some res.id
        cache := some (onSuccessUpdate step.1 res step.2.tempId)
        rateLimitToast := false }
  | .error e =>
      { id := none
        cache := some step.2.previous
        rateLimitToast := strIncludes e.message "429" }

lemma submitFlow_error_toast (cache0 : Option PaginatedReviewsResponse)
    (tempId language now : String) (e : SubmitError) :
    (submitFlow cache0 tempId language now (.error e)).rateLimitToast =
      strIncludes e.message "429" := rfl

/-- C3: a rate-limit denial surfaces the distinct "too many requests" toast
with no submission id assigned; no other submission error shows that toast,
and a successful submission never shows it. -/
theorem rate_limit_notice (cache0 : Option PaginatedReviewsResponse)
    (tempId language now : String) :
    (∀ e : SubmitError,
      ((submitFlow cache0 tempId language now (.error e)).rateLimitToast = true ↔
        e = .admissionDenied) ∧
      (submitFlow cache0 tempId language now (.error e)).id = none) ∧
    (∀ res : SubmitResponse,
      (submitFlow cache0 tempId language now (.ok res)).rateLimitToast = false) := by
  refine ⟨fun e => ⟨?_, rfl⟩, fun res => rfl⟩
  rw [submitFlow_error_toast]
  cases e <;> simp [SubmitError.message] <;> decide

/-- C7: every result record has exactly the fields id, language, status,
score, issues, security, performance, suggestions, created_at, updated_at and
a nullable error; the optimistic record fills them with pending status, null
score and null error. -/
theorem result_record_shape :
    (∀ r : Review,
      r = Review.mk r.id r.language r.status r.score r.issues r.security
        r.performance r.suggestions r.created_at r.updated_at r.error) ∧
    (∀ tempId language now : String,
      (mkOptimistic tempId language now).status = Status.pending ∧
      (mkOptimistic tempId language now).score = none ∧
      (mkOptimistic tempId language now).error = none) :=
  ⟨fun r => by cases r; rfl, fun _ _ _ => ⟨rfl, rfl, rfl⟩⟩

/-- C8: when the submit call fails, the cached reviews list is restored
exactly to the snapshot captured before the optimistic insert (so a
previously present cache value is unchanged) and no submission id is set;
the id is set exactly on success. -/
theorem optimistic_rollback (cache0 : Option PaginatedReviewsResponse)
    (tempId language now : String) :
    ((onMutate cache0 tempId language now).2.previous = cache0.getD emptyPage) ∧
    (∀ e : SubmitError,
      (submitFlow cache0 tempId language now (.error e)).cache =
        some (onMutate cache0 tempId language now).2.previous ∧
      (∀ v, cache0 = some v →
        (submitFlow cache0 tempId language now (.error e)).cache = some v) ∧
      (submitFlow cache0 tempId language now (.error e)).id = none) ∧
    (∀ res : SubmitResponse,
      (submitFlow cache0 tempId language now (.ok res)).id = some res.id) :=
  ⟨rfl, fun _ => ⟨rfl, fun _ hv => by subst hv; rfl, rfl⟩, fun _ => rfl⟩

/-- Concrete instantiation of `optimistic_rollback`: a failing submit leaves
a previously cached page exactly as it was. -/
theorem optimistic_rollback_witness :
    (submitFlow (some emptyPage) "temp-1" "python" "t0"
        (.error .serverError)).cache = some emptyPage :=
  ((optimistic_rollback (some emptyPage) "temp-1" "python" "t0").2.1
    SubmitError.serverError).2.1 emptyPage rfl

/-- Date range selected in the history filters; dates are modelled as epoch
milliseconds.  `start`/`stop` mirror `f.date?.from` / `f.date?.to`
(`History.tsx` lines 23–24). -/
structure DateRange where
  start : Option Nat
  stop : Option Nat
  deriving DecidableEq

/-- The history filter value (`History.tsx` lines 11–15 and its uses in
`toReviewParams`): a language string, an optional score range and an optional
date range. -/
structure HistoryFilterValue where
  language : String
  scoreRange : Option (Int × Int)
  date : Option DateRange
  deriving DecidableEq

/-- Definition `DEFAULT_FILTERS` (`History.tsx` lines 11–15). -/
def DEFAULT_FILTERS : HistoryFilterValue :=
  { language := "all", scoreRange := some (0, 10), date := none }

/-- Query parameters for the reviews list endpoint (`History.tsx`,
`lib/types` ListReviewsParams as used by `toReviewParams`). -/
structure ListReviewsParams where
  page : Nat
  page_size : Nat
  language : Option String
  min_score : Option Int
  max_score : Option Int
  start_date : Option String
  end_date : Option String
  deriving DecidableEq

/-- Model of `Date.prototype.toISOString`: an injective rendering of the
epoch-millisecond timestamp. -/
def toISOString (ms : Nat) : String := toString ms

/-- Model of date-fns `endOfDay`: the last millisecond of the UTC day of the timestamp. -/
def endOfDay (ms : Nat) : Nat := ms / 86400000 * 86400000 + 86399999

/-- Embedding of `toReviewParams` (`History.tsx` lines 17–26): always page and
page_size 20; language only when truthy and not "all"; min_score only when
the lower bound exceeds 0; max_score only when the upper bound is below 10;
start_date/end_date only when the corresponding date is present. -/
def toReviewParams (f : HistoryFilterValue) (page : Nat) : ListReviewsParams :=
  let p0 : ListReviewsParams :=
    { page := page, page_size := 20, language := none, min_score := none,
      max_score := none, start_date := none, end_date := none }
  let p1 := if f.language ≠ "" ∧ f.language ≠ "all"
    then { p0 with language := some f.language } else p0
  let mm := f.scoreRange.getD (0, 10)
  let p2 := if 0 < mm.1 then { p1 with min_score := some mm.1 } else p1
  let p3 := if mm.2 < 10 then { p2 with max_score := some mm.2 } else p2
  let p4 :=
    match f.date with
    | some d =>
        match d.start with
        | some ms => { p3 with start_date := some (toISOString ms) }
        | none => p3
    | none => p3
  match f.date with
  | some d =>
      match d.stop with
      | some ms => { p4 with end_date := some (toISOString (endOfDay ms)) }
      | none => p4
  | none => p4

lemma trp_min_score (f : HistoryFilterValue) (page : Nat) :
    (toReviewParams f page).min_score =
      if 0 < (f.scoreRange.getD (0, 10)).1 then some (f.scoreRange.getD (0, 10)).1
      else none := by
  rcases f with ⟨lang, sr, date⟩
  simp only [toReviewParams]
  rcases date with _ | ⟨ds, de⟩
  · split_ifs <;> rfl
  · rcases ds with _ | s <;> rcases de with _ | e <;> split_ifs <;> rfl

lemma trp_max_score (f : HistoryFilterValue) (page : Nat) :
    (toReviewParams f page).max_score =
      if (f.scoreRange.getD (0, 10)).2 < 10 then some (f.scoreRange.getD (0, 10)).2
      else none := by
  rcases f with ⟨lang, sr, date⟩
  simp only [toReviewParams]
  rcases date with _ | ⟨ds, de⟩
  · split_ifs <;> rfl
  · rcases ds with _ | s <;> rcases de with _ | e <;> split_ifs <;> rfl

lemma trp_language (f : HistoryFilterValue) (page : Nat) :
    (toReviewParams f page).language =
      if f.language ≠ "" ∧ f.language ≠ "all" then some f.language else none := by
  rcases f with ⟨lang, sr, date⟩
  simp only [toReviewParams]
  rcases date with _ | ⟨ds, de⟩
  · split_ifs <;> rfl
  · rcases ds with _ | s <;> rcases de with _ | e <;> split_ifs <;> rfl

lemma trp_start_date (f : HistoryFilterValue) (page : Nat) :
    (toReviewParams f page).start_date =
      match f.date with
      | some d => d.start.map toISOString
      | none => none := by
  rcases f with ⟨lang, sr, date⟩
  simp only [toReviewParams]
  rcases date with _ | ⟨ds, de⟩
  · split_ifs <;> rfl
  · rcases ds with _ | s <;> rcases de with _ | e <;> split_ifs <;> rfl

lemma trp_end_date (f : HistoryFilterValue) (page : Nat) :
    (toReviewParams f page).end_date =
      match f.date with
      | some d => d.stop.map fun ms => toISOString (endOfDay ms)
      | none => none := by
  rcases f with ⟨lang, sr, date⟩
  simp only [toReviewParams]
  rcases date with _ | ⟨ds, de⟩
  · split_ifs <;> rfl
  · rcases ds with _ | s <;> rcases de with _ | e <;> split_ifs <;> rfl

lemma trp_page (f : HistoryFilterValue) (page : Nat) :
    (toReviewParams f page).page = page ∧ (toReviewParams f page).page_size = 20 := by
  rcases f with ⟨lang, sr, date⟩
  simp only [toReviewParams]
  rcases date with _ | ⟨ds, de⟩
  · split_ifs <;> exact ⟨rfl, rfl⟩
  · rcases ds with _ | s <;> rcases de with _ | e <;> split_ifs <;> exact ⟨rfl, rfl⟩

/-- C9: toReviewParams includes min_score iff the lower bound exceeds 0,
max_score iff the upper bound is below 10, language iff it is set (nonempty)
and not "all", start_date/end_date iff the corresponding date is present;
the default filters produce only the page number and page_size 20. -/
theorem history_params (f : HistoryFilterValue) (page : Nat) :
    ((toReviewParams f page).min_score.isSome = true ↔
      0 < (f.scoreRange.getD (0, 10)).1) ∧
    ((toReviewParams f page).max_score.isSome = true ↔
      (f.scoreRange.getD (0, 10)).2 < 10) ∧
    ((toReviewParams f page).language.isSome = true ↔
      (f.language ≠ "" ∧ f.language ≠ "all")) ∧
    ((toReviewParams f page).start_date.isSome = true ↔
      ∃ d, f.date = some d ∧ d.start.isSome = true) ∧
    ((toReviewParams f page).end_date.isSome = true ↔
      ∃ d, f.date = some d ∧ d.stop.isSome = true) ∧
    ((toReviewParams f page).page = page ∧ (toReviewParams f page).page_size = 20) ∧
    toReviewParams DEFAULT_FILTERS page =
      { page := page, page_size := 20, language := none, min_score := none,
        max_score := none, start_date := none, end_date := none } := by
  refine ⟨?_, ?_, ?_, ?_, ?_, trp_page f page, ?_⟩
  · rw [trp_min_score]; split_ifs with h <;> simp [h]
  · rw [trp_max_score]; split_ifs with h <;> simp [h]
  · rw [trp_language]; split_ifs with h <;> simp [h]
  · rw [trp_start_date]
    rcases hd : f.date with _ | d
    · simp
    · rcases hs : d.start with _ | s <;> simp [hs]
  · rw [trp_end_date]
    rcases hd : f.date with _ | d
    · simp
    · rcases hs : d.stop with _ | s <;> simp [hs]
  · rfl

/-- The wire text of a status, as the frontend `Review["status"]` string. -/
def Status.text : Status → String
  | .pending => "pending"
  | .in_progress => "in_progress"
  | .completed => "completed"
  | .failed => "failed"

/-- A CSV cell value: the TypeScript union `string | number` that the
`CsvRow` fields range over. -/
inductive CsvValue where
  | str (s : String)
  | num (n : Int)
  deriving DecidableEq

/-- Record `CsvRow` (`History.tsx` lines 36–42): score is `number | ""`. -/
structure CsvRow where
  id : String
  language : String
  status : String
  score : CsvValue
  created_at : String
  deriving DecidableEq

/-- The row built from a review (`History.tsx` lines 89–95): a null score
becomes the empty string. -/
def toCsvRow (r : Review) : CsvRow :=
  { id := r.id
    language := r.language
    status := r.status.text
    score := match r.score with | some n => .num n | none => .str ""
    created_at := r.created_at }

/-- Lower-case hexadecimal digit. -/
def hexDigit (n : Nat) : Char :=
  if n < 10 then Char.ofNat (48 + n) else Char.ofNat (87 + n)

/-- JSON escaping of one character, as `JSON.stringify` performs on string
values. -/
def jsonEscapeChar (c : Char) : String :=
  if c = '"' then "\\\""
  else if c = '\\' then "\\\\"
  else if c = '\n' then "\\n"
  else if c = '\r' then "\\r"
  else if c = '\t' then "\\t"
  else if c.toNat = 8 then "\\b"
  else if c.toNat = 12 then "\\f"
  else if c.toNat < 32 then
    "\\u00" ++ String.mk [hexDigit (c.toNat / 16), hexDigit (c.toNat % 16)]
  else String.singleton c

/-- Model of `JSON.stringify` on a string value: escaped and wrapped in quotes. -/
def jsonQuote (s : String) : String :=
  "\"" ++ String.join (s.data.map jsonEscapeChar) ++ "\""

/-- Model of `JSON.stringify` on the CSV cell union: strings are quoted, numbers are
rendered bare. -/
def jsonStringify : CsvValue → String
  | .str s => jsonQuote s
  | .num n => toString n

/-- The fixed header list (`History.tsx` line 97). -/
def csvHeaders : List String := ["id", "language", "status", "score", "created_at"]

/-- Field access `r[h] ?? ""` (`History.tsx` line 100). -/
def csvFieldValue (r : CsvRow) : String → CsvValue
  | "id" => .str r.id
  | "language" => .str r.language
  | "status" => .str r.status
  | "score" => r.score
  | "created_at" => .str r.created_at
  | _ => .str ""

/-- One CSV data line (`History.tsx` line 100): each header field is
passed through `JSON.stringify` and the cells are comma-joined. -/
def renderCsvRow (r : CsvRow) : String :=
  String.intercalate "," (csvHeaders.map fun h => jsonStringify (csvFieldValue r h))

/-- The lines of the exported CSV (`History.tsx` lines 98–101): the joined
header line followed by one rendered row per item. -/
def exportCSVLines (items : List Review) : List String :=
  String.intercalate "," csvHeaders :: (items.map toCsvRow).map renderCsvRow

/-- The exported CSV text (`History.tsx` line 101). -/
def exportCSV (items : List Review) : String :=
  String.intercalate "\n" (exportCSVLines items)

/-- C10: the export has items.length + 1 lines, the fixed header first, then
one JSON-quoted row per item in list order; a null score is rendered as the
(JSON-quoted) empty string. -/
theorem export_csv_shape (items : List Review) :
    (exportCSVLines items).length = items.length + 1 ∧
    (exportCSVLines items).head? = some "id,language,status,score,created_at" ∧
    (exportCSVLines items).tail = items.map (fun r => renderCsvRow (toCsvRow r)) ∧
    exportCSV items = String.intercalate "\n" (exportCSVLines items) ∧
    (∀ r : Review, r.score = none →
      (toCsvRow r).score = CsvValue.str "" ∧
      jsonStringify (toCsvRow r).score = "\"\"") := by
  refine ⟨by simp [exportCSVLines], rfl, by simp [exportCSVLines, List.map_map],
    rfl, fun r h => ?_⟩
  refine ⟨by simp [toCsvRow, h], ?_⟩
  have hs : (toCsvRow r).score = CsvValue.str "" := by simp [toCsvRow, h]
  rw [hs]
  rfl

/-- Concrete instantiation of `export_csv_shape`: the optimistic pending
record has a null score and its CSV cell is the quoted empty string. -/
theorem export_csv_shape_witness :
    (toCsvRow (mkOptimistic "temp-1" "python" "t0")).score = CsvValue.str "" ∧
    jsonStringify (toCsvRow (mkOptimistic "temp-1" "python" "t0")).score = "\"\"" :=
  (export_csv_shape [mkOptimistic "temp-1" "python" "t0"]).2.2.2.2
    (mkOptimistic "temp-1" "python" "t0") rfl

/-- Modelled from the spec: rate limiter configuration surface (spec §4.1,
§6; README `RATE_LIMIT_PER_HOUR`): a fixed window length and a ceiling.  The
backend rate limiter source is not in the tree. -/
structure RLConfig where
  windowLen : Nat
  ceiling : Nat
  deriving DecidableEq

/-- Modelled from the spec: the Rate Counter store (spec §3): per client
identity and per time bucket, a request count. -/
abbrev RLState := String → Nat → Nat

/-- The store with no recorded requests (expired/fresh counters read 0). -/
def initRL : RLState := fun _ _ => 0

/-- The fixed-window bucket a timestamp falls into (spec §4.1). -/
def windowOf (cfg : RLConfig) (now : Nat) : Nat := now / cfg.windowLen

/-- Modelled from the spec: fixed-window admission control (spec §4.1): every
call increments the current-window counter of the identity — denial also
increments — and the call is allowed while the incremented counter stays at
or below the ceiling (`true` = allow, `false` = deny). -/
def admission (cfg : RLConfig) (st : RLState) (ident : String) (now : Nat) :
    RLState × Bool :=
  let w := windowOf cfg now
  let c := st ident w + 1
  (fun i u => if i = ident ∧ u = w then c else st i u, decide (c ≤ cfg.ceiling))

/-- Iterate `n` successive calls for one identity at one timestamp, starting from the
empty store; the second component is the result of the latest call. -/
def admissionN (cfg : RLConfig) (ident : String) (now : Nat) : Nat → RLState × Bool
  | 0 => (initRL, true)
  | n + 1 => admission cfg (admissionN cfg ident now n).1 ident now

lemma admissionN_counter (cfg : RLConfig) (ident : String) (now : Nat) (n : Nat) :
    (admissionN cfg ident now n).1 ident (windowOf cfg now) = n := by
  induction n with
  | zero => rfl
  | succ k ih => simp [admissionN, admission, ih]

lemma admissionN_other (cfg : RLConfig) (ident : String) (now : Nat) (n : Nat)
    (w : Nat) (hw : w ≠ windowOf cfg now) :
    (admissionN cfg ident now n).1 ident w = 0 := by
  induction n with
  | zero => rfl
  | succ k ih => simp [admissionN, admission, hw, ih]

lemma admissionN_result (cfg : RLConfig) (ident : String) (now : Nat) (k : Nat) :
    (admissionN cfg ident now (k + 1)).2 = decide (k + 1 ≤ cfg.ceiling) := by
  simp [admissionN, admission, admissionN_counter]

/-- C4: starting from a fresh window, the nth call for an identity is denied
exactly when n exceeds the ceiling (so the first call past the ceiling is
denied), and the counter read in any other window — in particular after the
window boundary elapses — is 0. -/
theorem rate_limit_ceiling (cfg : RLConfig) (ident : String) (now : Nat) (n : Nat)
    (hn : 0 < n) :
    ((admissionN cfg ident now n).2 = false ↔ cfg.ceiling < n) ∧
    (∀ later, windowOf cfg later ≠ windowOf cfg now →
      (admissionN cfg ident now n).1 ident (windowOf cfg later) = 0) := by
  constructor
  · match n, hn with
    | k + 1, _ =>
      rw [admissionN_result]
      simp [Nat.not_le]
  · intro later h
    exact admissionN_other cfg ident now n _ h

/-- Concrete instantiation of `rate_limit_ceiling`: with ceiling 10 the 11th
call in the hour window is denied, and the counter of the next window reads 0. -/
theorem rate_limit_ceiling_witness :
    ((admissionN ⟨3600, 10⟩ "203.0.113.7" 0 11).2 = false ↔ (10 : Nat) < 11) ∧
    (admissionN ⟨3600, 10⟩ "203.0.113.7" 0 11).1 "203.0.113.7"
      (windowOf ⟨3600, 10⟩ 3600) = 0 :=
  ⟨(rate_limit_ceiling ⟨3600, 10⟩ "203.0.113.7" 0 11 (by decide)).1,
    (rate_limit_ceiling ⟨3600, 10⟩ "203.0.113.7" 0 11 (by decide)).2 3600 (by decide)⟩

/-- C5: every call increments the current-window counter of the identity by
exactly one — whether the call is allowed or denied — and touches no other
counter. -/
theorem rate_limit_increment (cfg : RLConfig) (st : RLState) (ident : String)
    (now : Nat) :
    ((admission cfg st ident now).1 ident (windowOf cfg now) =
      st ident (windowOf cfg now) + 1) ∧
    (∀ i u, ¬(i = ident ∧ u = windowOf cfg now) →
      (admission cfg st ident now).1 i u = st i u) := by
  refine ⟨by simp [admission], fun i u h => ?_⟩
  simp only [admission]
  rw [if_neg h]

/-- Concrete instantiation of `rate_limit_increment`. -/
theorem rate_limit_increment_witness :
    (admission ⟨3600, 10⟩ initRL "203.0.113.7" 0).1 "203.0.113.7"
        (windowOf ⟨3600, 10⟩ 0) =
      initRL "203.0.113.7" (windowOf ⟨3600, 10⟩ 0) + 1 ∧
    (admission ⟨3600, 10⟩ initRL "203.0.113.7" 0).1 "198.51.100.2" 0 =
      initRL "198.51.100.2" 0 :=
  ⟨(rate_limit_increment ⟨3600, 10⟩ initRL "203.0.113.7" 0).1,
    (rate_limit_increment ⟨3600, 10⟩ initRL "203.0.113.7" 0).2 "198.51.100.2" 0
      (by decide)⟩

/-- Modelled from the spec: a raw issue from the semi-structured engine
output (spec §4.4, docs/overview.md). -/
structure EngineIssueRaw where
  title : String
  detail : String
  severity : String
  category : String
  deriving DecidableEq

/-- Modelled from the spec: the parsed engine response; the score field may
be absent (spec §4.4, §8). -/
structure EngineResponse where
  score : Option Int
  issues : List EngineIssueRaw
  suggestions : List String
  deriving DecidableEq

/-- Modelled from the spec: severity values the pipeline recognizes;
anything else is coerced to the "other" bucket (spec §4.4). -/
def knownSeverities : List String := ["low", "medium", "high"]

/-- Modelled from the spec: category values the pipeline recognizes. -/
def knownCategories : List String := ["style", "security", "performance", "correctness"]

/-- Coerce an unknown enum value to "other" instead of rejecting it. -/
def coerceToKnown (known : List String) (v : String) : String :=
  if v ∈ known then v else "other"

/-- Normalization of one issue record (spec §4.4). -/
def normalizeIssue (i : EngineIssueRaw) : Issue :=
  { title := i.title
    detail := i.detail
    severity := coerceToKnown knownSeverities i.severity
    category := coerceToKnown knownCategories i.category }

/-- Clamp a score into the valid range 1..10 (spec §4.4, §8, README). -/
def clampScore (s : Int) : Int := max 1 (min 10 s)

/-- The Review Result snapshot written at terminal state and cached
(spec §3). -/
structure CachedResult where
  status : Status
  score : Int
  issues : List Issue
  suggestions : List String
  deriving DecidableEq

/-- A terminal processing outcome (spec §4.4, design note §9: tagged result
rather than exception-driven control flow). -/
inductive ReviewOutcome where
  | completed (r : CachedResult)
  | failed (reason : String)
  deriving DecidableEq

/-- Modelled from the spec: worker normalization of the engine output
(spec §4.4, §7): a missing score escalates to `failed` with a human-readable
reason; otherwise the score is clamped, enum values coerced, and the
submission completes. -/
def normalize (resp : EngineResponse) : ReviewOutcome :=
  match resp.score with
  | none => .failed "engine output missing required field: score"
  | some s =>
      .completed
        { status := .completed
          score := clampScore s
          issues := resp.issues.map normalizeIssue
          suggestions := resp.suggestions }

/-- C6: an engine response without a score reaches the failed terminal state
with a non-empty reason; a present score is clamped into 1..10 (unchanged
when already in range) and the submission still reaches completed. -/
theorem engine_normalization (resp : EngineResponse) :
    (resp.score = none →
      ∃ reason, normalize resp = .failed reason ∧ reason ≠ "") ∧
    (∀ s, resp.score = some s →
      normalize resp =
        .completed
          { status := .completed, score := clampScore s,
            issues := resp.issues.map normalizeIssue,
            suggestions := resp.suggestions } ∧
      1 ≤ clampScore s ∧ clampScore s ≤ 10 ∧
      (1 ≤ s → s ≤ 10 → clampScore s = s)) := by
  constructor
  · intro h
    exact ⟨"engine output missing required field: score",
      by simp [normalize, h], by decide⟩
  · intro s hs
    refine ⟨by simp [normalize, hs], ?_, ?_, fun h1 h10 => ?_⟩
    all_goals simp only [clampScore]
    all_goals omega

/-- Concrete instantiation of `engine_normalization`: a missing score fails
with a reason; an out-of-range score 42 completes clamped. -/
theorem engine_normalization_witness :
    (∃ reason, normalize ⟨none, [], []⟩ = .failed reason ∧ reason ≠ "") ∧
    (normalize ⟨some 42, [], []⟩ =
        .completed
          { status := .completed, score := clampScore 42, issues := [],
            suggestions := [] } ∧
      1 ≤ clampScore 42 ∧ clampScore 42 ≤ 10 ∧
      (1 ≤ (42 : Int) → (42 : Int) ≤ 10 → clampScore 42 = 42)) :=
  ⟨(engine_normalization ⟨none, [], []⟩).1 rfl,
    (engine_normalization ⟨some 42, [], []⟩).2 42 rfl⟩

/-- A cache entry: a result snapshot with its expiry instant (spec §3). -/
structure CacheEntry where
  value : CachedResult
  expiresAt : Nat
  deriving DecidableEq

/-- Modelled from the spec: the content cache, keyed by content hash
(spec §4.2); the backend cache source is not in the tree. -/
abbrev Cache := List (String × CacheEntry)

/-- Operation `store`: unconditional overwrite with a TTL (spec §4.2). -/
def store (c : Cache) (key : String) (v : CachedResult) (now ttl : Nat) : Cache :=
  (key, { value := v, expiresAt := now + ttl }) :: c.filter fun kv => kv.1 != key

/-- Operation `lookup`: a hit only for an unexpired entry (spec §4.2). -/
def lookup (c : Cache) (key : String) (now : Nat) : Option CachedResult :=
  match c.find? (fun kv => kv.1 == key) with
  | some kv => if now < kv.2.expiresAt then some kv.2.value else none
  | none => none

/-- Modelled from the spec: how the worker pool drives the cache (spec §4.4):
a completed normalization writes the entry, a failed one leaves the cache
untouched. -/
def workerFinish (c : Cache) (key : String) (resp : EngineResponse)
    (now ttl : Nat) : Cache :=
  match normalize resp with
  | .completed r => store c key r now ttl
  | .failed _ => c

/-- One worker completion event. -/
structure WorkerEvent where
  key : String
  resp : EngineResponse
  now : Nat
  ttl : Nat

/-- The cache state reached by a sequence of worker events from the empty
cache. -/
def runWorker (evs : List WorkerEvent) : Cache :=
  evs.foldl (fun c e => workerFinish c e.key e.resp e.now e.ttl) []

lemma normalize_completed_status {resp : EngineResponse} {r : CachedResult}
    (h : normalize resp = .completed r) : r.status = Status.completed := by
  unfold normalize at h
  cases hs : resp.score with
  | none => rw [hs] at h; simp at h
  | some s =>
    rw [hs] at h
    simp only [ReviewOutcome.completed.injEq] at h
    rw [← h]

lemma store_inv {c : Cache}
    (h : ∀ kv ∈ c, (kv : String × CacheEntry).2.value.status = Status.completed)
    {key : String} {v : CachedResult} {now ttl : Nat}
    (hv : v.status = Status.completed) :
    ∀ kv ∈ store c key v now ttl,
      (kv : String × CacheEntry).2.value.status = Status.completed := by
  intro kv hkv
  rcases List.mem_cons.1 hkv with hkv | hkv
  · rw [hkv]; exact hv
  · exact h kv (List.mem_of_mem_filter hkv)

lemma workerFinish_inv {c : Cache}
    (h : ∀ kv ∈ c, (kv : String × CacheEntry).2.value.status = Status.completed)
    (key : String) (resp : EngineResponse) (now ttl : Nat) :
    ∀ kv ∈ workerFinish c key resp now ttl,
      (kv : String × CacheEntry).2.value.status = Status.completed := by
  unfold workerFinish
  cases hn : normalize resp with
  | completed r => exact store_inv h (normalize_completed_status hn)
  | failed reason => exact h

lemma runWorker_inv_aux (evs : List WorkerEvent) (c : Cache)
    (h : ∀ kv ∈ c, (kv : String × CacheEntry).2.value.status = Status.completed) :
    ∀ kv ∈ evs.foldl (fun c e => workerFinish c e.key e.resp e.now e.ttl) c,
      (kv : String × CacheEntry).2.value.status = Status.completed := by
  induction evs generalizing c with
  | nil => exact h
  | cons e rest ih =>
    exact ih _ (workerFinish_inv h e.key e.resp e.now e.ttl)

lemma lookup_mem {c : Cache} {key : String} {now : Nat} {r : CachedResult}
    (h : lookup c key now = some r) :
    ∃ e, (key, e) ∈ c ∧ now < e.expiresAt ∧ e.value = r := by
  unfold lookup at h
  cases hf : c.find? (fun kv => kv.1 == key) with
  | none => rw [hf] at h; exact absurd h (by simp)
  | some kv =>
    rw [hf] at h
    dsimp only at h
    have hmem := List.mem_of_find?_eq_some hf
    have hp := List.find?_some hf
    have hkey : kv.1 = key := by simpa using hp
    by_cases hexp : now < kv.2.expiresAt
    · rw [if_pos hexp] at h
      refine ⟨kv.2, ?_, hexp, by injection h⟩
      rw [← hkey]
      exact hmem
    · rw [if_neg hexp] at h
      exact absurd h (by simp)

/-- C2: in every cache state the worker pool can reach, every entry holds a
completed (terminal, non-failed) result, and lookup only ever returns the
completed value of an unexpired entry. -/
theorem cache_terminal_only :
    (∀ (evs : List WorkerEvent) (key : String) (e : CacheEntry),
      (key, e) ∈ runWorker evs → e.value.status = Status.completed) ∧
    (∀ (evs : List WorkerEvent) (key : String) (now : Nat) (r : CachedResult),
      lookup (runWorker evs) key now = some r → r.status = Status.completed) ∧
    (∀ (c : Cache) (key : String) (now : Nat) (r : CachedResult),
      lookup c key now = some r →
        ∃ e, (key, e) ∈ c ∧ now < e.expiresAt ∧ e.value = r) := by
  have hinv : ∀ (evs : List WorkerEvent) (key : String) (e : CacheEntry),
      (key, e) ∈ runWorker evs → e.value.status = Status.completed := by
    intro evs key e hmem
    exact runWorker_inv_aux evs [] (by simp) (key, e) hmem
  refine ⟨hinv, fun evs key now r h => ?_, fun c key now r h => lookup_mem h⟩
  obtain ⟨e, hmem, _, hval⟩ := lookup_mem h
  rw [← hval]
  exact hinv evs key e hmem

/-- Concrete instantiation of `cache_terminal_only`: the cache produced by
one completed review holds a completed entry, and a fresh lookup hit returns
it unexpired. -/
theorem cache_terminal_only_witness :
    (CachedResult.mk Status.completed 5 [] []).status = Status.completed ∧
    (∃ e, ("k", e) ∈
        ([("k", CacheEntry.mk (CachedResult.mk Status.completed 5 [] []) 60)] : Cache) ∧
      (10 : Nat) < e.expiresAt ∧ e.value = CachedResult.mk Status.completed 5 [] []) :=
  ⟨cache_terminal_only.2.1 [⟨"k", ⟨some 5, [], []⟩, 0, 60⟩] "k" 10
      (CachedResult.mk Status.completed 5 [] []) (by decide),
    cache_terminal_only.2.2
      [("k", CacheEntry.mk (CachedResult.mk Status.completed 5 [] []) 60)] "k" 10
      (CachedResult.mk Status.completed 5 [] []) (by decide)⟩

end CodeSentinel
